import Mathlib

/-!
SWL_View schedule engine: a shallow embedding

This file embeds the normalization / merge / liveness / projection engine of
`app/main.py` (functions `_parse_hhmm`, `_format_hhmm`, `_format_time_range`,
`_join_non_empty`, `_iso2_to_flag`, `_flag_from_itu`, `_extract_day_set`,
`_day_set_to_display`, `_entry_matches_weekday`, `_day_matches`, `_is_live_now`,
`_normalize_entry`, `_merge_entries`, `_build_freq_time_plot`,
`_build_freq_jumps`) and proves the specification claims about it.

Modelling conventions:
* Python `str` is modelled by Lean `String` (a wrapper around `List Char`);
  `str.strip`, `str.lower`, `str.upper`, `str.isdigit`, `str.isalpha` are
  modelled on the ASCII fragment actually exercised by the schedule data.
* Python `set[str]` over the seven weekday codes is modelled by `DaySet`,
  a record of seven `Bool`s (set semantics: only membership is observable).
* Python floats in the scatter plot / jump markers are modelled by exact
  rational arithmetic (`Rat`); `round(x, 2)` is modelled by round-half-to-even
  on the exact value, `int(x)` by truncation toward zero.
* A raised Python exception is modelled by `Option.none`.
-/

namespace SWLView

/-! ## Characters and strings -/

/-- Whitespace stripped by `str.strip` (ASCII fragment). -/
def isPySpace (c : Char) : Bool :=
  c = ' ' || c = '\t' || c = '\n' || c = '\r' || c = '\x0b' || c = '\x0c'

/-- `str.strip` on the underlying character list. -/
def stripChars (l : List Char) : List Char :=
  ((l.dropWhile isPySpace).reverse.dropWhile isPySpace).reverse

/-- Python `value.strip()`. -/
def pyStrip (s : String) : String := ⟨stripChars s.data⟩

/-- ASCII lower-casing of one character (`str.lower`). -/
def asciiLower (c : Char) : Char :=
  if 'A' ≤ c ∧ c ≤ 'Z' then Char.ofNat (c.toNat + 32) else c

/-- Python `value.lower()` (ASCII fragment). -/
def pyLower (s : String) : String := ⟨s.data.map asciiLower⟩

/-- ASCII upper-casing of one character (`str.upper`). -/
def asciiUpper (c : Char) : Char :=
  if 'a' ≤ c ∧ c ≤ 'z' then Char.ofNat (c.toNat - 32) else c

/-- Python `value.upper()` (ASCII fragment). -/
def pyUpper (s : String) : String := ⟨s.data.map asciiUpper⟩

def isAsciiDigit (c : Char) : Bool := '0' ≤ c ∧ c ≤ '9'

/-- Python `value.isdigit()`: non-empty and all digits (ASCII fragment). -/
def pyIsDigit (l : List Char) : Bool := !l.isEmpty && l.all isAsciiDigit

/-- Numeric value of a digit string (no sign), most significant first. -/
def digitsToNat (l : List Char) : Nat :=
  l.foldl (fun acc c => acc * 10 + (c.toNat - '0'.toNat)) 0

/-- Python `value.zfill(4)` for digit-only strings: left-pad with `'0'`. -/
def zfill4 (l : List Char) : List Char :=
  if l.length < 4 then List.replicate (4 - l.length) '0' ++ l else l

/-- Python `int(s)` on a string: strip, optional sign, decimal digits;
anything else raises `ValueError`, modelled as `none`. -/
def pyIntOfStr (s : String) : Option Int :=
  let t := stripChars s.data
  match t with
  | '+' :: rest => if pyIsDigit rest then some (digitsToNat rest) else none
  | '-' :: rest => if pyIsDigit rest then some (-(digitsToNat rest : Int)) else none
  | _ => if pyIsDigit t then some (digitsToNat t) else none

/-- Does the first list start with the second one? -/
def startsWith : List Char → List Char → Bool
  | _, [] => true
  | [], _ :: _ => false
  | c :: cs, d :: ds => c = d && startsWith cs ds

/-- Substring test (`needle in haystack` for Python strings). -/
def containsSub (haystack needle : List Char) : Bool :=
  match haystack with
  | [] => needle.isEmpty
  | _ :: rest => startsWith haystack needle || containsSub rest needle

/-! ## Days and day sets -/

/-- The seven weekday codes `"mo"… "su"` of `DAY_ORDER`. -/
inductive Day : Type
  | mo | tu | we | th | fr | sa | su
deriving DecidableEq, Fintype

/-- `DAY_ORDER = ["mo", "tu", "we", "th", "fr", "sa", "su"]`. -/
def DAY_ORDER : List Day := [.mo, .tu, .we, .th, .fr, .sa, .su]

/-- The two-letter code of a day, as in `DAY_ORDER`. -/
def dayCode : Day → String
  | .mo => "mo" | .tu => "tu" | .we => "we" | .th => "th"
  | .fr => "fr" | .sa => "sa" | .su => "su"

/-- `DAY_LABEL`: three-letter display label. -/
def DAY_LABEL : Day → String
  | .mo => "Mon" | .tu => "Tue" | .we => "Wed" | .th => "Thu"
  | .fr => "Fri" | .sa => "Sat" | .su => "Sun"

/-- Index of a day in `DAY_ORDER`. -/
def dayIdx : Day → Nat
  | .mo => 0 | .tu => 1 | .we => 2 | .th => 3 | .fr => 4 | .sa => 5 | .su => 6

/-- `DAY_ORDER[n]` for `n < 7` (callers only index in range; the final
catch-all is never reached). -/
def dayAtNat : Nat → Day
  | 0 => .mo | 1 => .tu | 2 => .we | 3 => .th | 4 => .fr | 5 => .sa
  | _ => .su

/-- A Python `set` of weekday codes: membership record over the 7 codes. -/
structure DaySet where
  mo : Bool := false
  tu : Bool := false
  we : Bool := false
  th : Bool := false
  fr : Bool := false
  sa : Bool := false
  su : Bool := false
deriving DecidableEq

def DaySet.empty : DaySet := {}

def DaySet.full : DaySet :=
  ⟨true, true, true, true, true, true, true⟩

def DaySet.mem (s : DaySet) : Day → Bool
  | .mo => s.mo | .tu => s.tu | .we => s.we | .th => s.th
  | .fr => s.fr | .sa => s.sa | .su => s.su

def DaySet.insert (s : DaySet) : Day → DaySet
  | .mo => { s with mo := true }
  | .tu => { s with tu := true }
  | .we => { s with we := true }
  | .th => { s with th := true }
  | .fr => { s with fr := true }
  | .sa => { s with sa := true }
  | .su => { s with su := true }

def DaySet.union (s t : DaySet) : DaySet :=
  ⟨s.mo || t.mo, s.tu || t.tu, s.we || t.we, s.th || t.th,
   s.fr || t.fr, s.sa || t.sa, s.su || t.su⟩

/-! ## The day-set parser `_extract_day_set` -/

/-- Index predicate of the inclusive range `A-B`: forward slice when
`start_idx ≤ end_idx`, week wraparound otherwise
(`DAY_ORDER[start_idx:] + DAY_ORDER[:end_idx + 1]`). -/
def inRangeIdx (startIdx endIdx i : Nat) : Bool :=
  if startIdx ≤ endIdx then startIdx ≤ i && i ≤ endIdx
  else i ≥ startIdx || i ≤ endIdx

/-- `found_days.update(DAY_ORDER[s : e+1])` resp. the wraparound union. -/
def addRange (startIdx endIdx : Nat) (acc : DaySet) : DaySet :=
  DAY_ORDER.foldl
    (fun a d => if inRangeIdx startIdx endIdx (dayIdx d) then a.insert d else a) acc

/-- The digit pass `re.findall(r"[1-7]", text)`:
every digit `1`–`7` adds `DAY_ORDER[int(match) - 1]`. -/
def digitScan (l : List Char) (acc : DaySet) : DaySet :=
  l.foldl
    (fun a c =>
      if '1' ≤ c ∧ c ≤ '7' then a.insert (dayAtNat (c.toNat - '1'.toNat)) else a) acc

/-- Match one lower-case two-letter weekday abbreviation at the head of the
list, i.e. the regex group `(mo|tu|we|th|fr|sa|su)`. -/
def matchDayCode : List Char → Option (Day × List Char)
  | 'm' :: 'o' :: rest => some (.mo, rest)
  | 't' :: 'u' :: rest => some (.tu, rest)
  | 'w' :: 'e' :: rest => some (.we, rest)
  | 't' :: 'h' :: rest => some (.th, rest)
  | 'f' :: 'r' :: rest => some (.fr, rest)
  | 's' :: 'a' :: rest => some (.sa, rest)
  | 's' :: 'u' :: rest => some (.su, rest)
  | _ => none

/-- `\s` of the regexes (ASCII fragment, same set as `isPySpace`). -/
def skipSpaces (l : List Char) : List Char := l.dropWhile isPySpace

/-- Match the `\s*[-–]\s*` separator of the optional range part. -/
def matchDash (l : List Char) : Option (List Char) :=
  match skipSpaces l with
  | c :: rest => if c = '-' ∨ c = '–' then some (skipSpaces rest) else none
  | [] => none

/-- The abbreviation pass: left-to-right, non-overlapping scan for
`(mo|…|su)(?:\s*[-–]\s*(mo|…|su))?`, exactly as `re.finditer` walks the
text.  A lone abbreviation is added; a range `A-B` adds the inclusive
forward walk with week wraparound.  `fuel` bounds recursion (callers pass
the text length, which suffices since every step consumes a character). -/
def scanAbbrevs : Nat → List Char → DaySet → DaySet
  | 0, _, acc => acc
  | _ + 1, [], acc => acc
  | fuel + 1, c :: rest, acc =>
    match matchDayCode (c :: rest) with
    | none => scanAbbrevs fuel rest acc
    | some (d, rest1) =>
      match (matchDash rest1).bind matchDayCode with
      | some (d2, rest2) =>
          scanAbbrevs fuel rest2 (addRange (dayIdx d) (dayIdx d2) acc)
      | none => scanAbbrevs fuel rest1 (acc.insert d)

/-- `_extract_day_set(days)`: `None` is modelled as `none`. -/
def extract_day_set (days : String) : Option DaySet :=
  let text := pyLower (pyStrip days)
  let cs := text.data
  if cs.isEmpty || containsSub cs ['d', 'a', 'i', 'l', 'y'] then some DaySet.full
  else
    let found := digitScan cs DaySet.empty
    let found := scanAbbrevs cs.length cs found
    if found = DaySet.empty then none else some found

/-- `_day_set_to_display(day_set, fallback)`. -/
def day_set_to_display (day_set : DaySet) (fallback : String) : String :=
  if day_set = DaySet.empty then fallback
  else if day_set = DaySet.full then "Daily"
  else String.intercalate ","
    ((DAY_ORDER.filter (fun d => day_set.mem d)).map DAY_LABEL)

/-! ## Time parsing and display helpers -/

/-- `_parse_hhmm(value)`: minutes since midnight, `none` on failure;
`"2400"` is accepted as `1440`. -/
def parse_hhmm (value : String) : Option Nat :=
  let v := stripChars value.data
  if pyIsDigit v then
    let z := zfill4 v
    let hours := digitsToNat (z.take 2)
    let minutes := digitsToNat (z.drop 2)
    if hours = 24 ∧ minutes = 0 then some 1440
    else if hours > 23 ∨ minutes > 59 then none
    else some (hours * 60 + minutes)
  else none

/-- `_format_hhmm(value)`. -/
def format_hhmm (value : String) : String :=
  let v := stripChars value.data
  if pyIsDigit v then
    let z := zfill4 v
    ⟨z.take 2 ++ ':' :: z.drop 2⟩
  else ⟨v⟩

/-- `_format_time_range(time_on, time_off)`. -/
def format_time_range (time_on time_off : String) : String :=
  let onStr := format_hhmm time_on
  let offStr := format_hhmm time_off
  if onStr ≠ "" ∧ offStr ≠ "" then onStr ++ "-" ++ offStr
  else if onStr ≠ "" then onStr else offStr

/-- `_join_non_empty(left, right, separator=" | ")`. -/
def join_non_empty (left right : String) (separator : String := " | ") : String :=
  let l := pyStrip left
  let r := pyStrip right
  if l ≠ "" ∧ r ≠ "" then l ++ separator ++ r
  else if l ≠ "" then l else r

/-! ## Flag glyphs -/

def isAsciiAlpha (c : Char) : Bool :=
  ('A' ≤ c ∧ c ≤ 'Z') || ('a' ≤ c ∧ c ≤ 'z')

/-- `_iso2_to_flag(iso2)`: two regional-indicator codepoints, or `"🌐"`. -/
def iso2_to_flag (iso2 : String) : String :=
  let code := pyUpper (pyStrip iso2)
  if code.data.length ≠ 2 ∨ ¬ code.data.all isAsciiAlpha then "🌐"
  else ⟨code.data.map (fun c => Char.ofNat (c.toNat + 127397))⟩

/-- The `ITU_TO_ISO2` table. -/
def ITU_TO_ISO2 : List (String × String) :=
  [("AFS", "ZA"), ("ALG", "DZ"), ("ALS", "AL"), ("AND", "AD"), ("ARG", "AR"),
   ("AUS", "AU"), ("AZE", "AZ"), ("AZR", "AZ"), ("B", "CN"), ("BEL", "BE"),
   ("BER", "BM"), ("BGD", "BD"), ("BHR", "BH"), ("BLR", "BY"), ("BOL", "BO"),
   ("BUL", "BG"), ("CAN", "CA"), ("CHL", "CL"), ("CHN", "CN"), ("CLM", "CO"),
   ("CLN", "LK"), ("COD", "CD"), ("COG", "CG"), ("CPV", "CV"), ("CUB", "CU"),
   ("CVA", "VA"), ("CYM", "KY"), ("CZE", "CZ"), ("D", "DE"), ("DNK", "DK"),
   ("E", "ES"), ("EGY", "EG"), ("EQA", "EC"), ("EST", "EE"), ("ETH", "ET"),
   ("F", "FR"), ("FIN", "FI"), ("FJI", "FJ"), ("FRO", "FO"), ("G", "GB"),
   ("GRC", "GR"), ("GRL", "GL"), ("GUF", "GF"), ("GUM", "GU"), ("HKG", "HK"),
   ("HND", "HN"), ("HNG", "HU"), ("HOL", "NL"), ("I", "IT"), ("IND", "IN"),
   ("INS", "ID"), ("IRL", "IE"), ("IRN", "IR"), ("ISL", "IS"), ("ISR", "IL"),
   ("J", "JP"), ("KAZ", "KZ"), ("KGZ", "KG"), ("KOR", "KR"), ("KRE", "KP"),
   ("KWT", "KW"), ("LBR", "LR"), ("LBY", "LY"), ("MAU", "MU"), ("MCO", "MC"),
   ("MDG", "MG"), ("MEX", "MX"), ("MLI", "ML"), ("MNG", "MN"), ("MRT", "MR"),
   ("MYA", "MM"), ("NGR", "NG"), ("NOR", "NO"), ("NZL", "NZ"), ("PAK", "PK"),
   ("PHL", "PH"), ("PNG", "PG"), ("POL", "PL"), ("POR", "PT"), ("PRU", "PE"),
   ("ROU", "RO"), ("RUS", "RU"), ("S", "SE"), ("SDN", "SD"), ("SEN", "SN"),
   ("SEY", "SC"), ("SLM", "SB"), ("SNG", "SG"), ("SOM", "SO"), ("SUI", "CH"),
   ("SVK", "SK"), ("SWZ", "SZ"), ("TCD", "TD"), ("THA", "TH"), ("TJK", "TJ"),
   ("TKM", "TM"), ("TRD", "TT"), ("TUR", "TR"), ("TWN", "TW"), ("UKR", "UA"),
   ("USA", "US"), ("UZB", "UZ"), ("VTN", "VN"), ("VUT", "VU")]

/-- `_flag_from_itu(itu)`. -/
def flag_from_itu (itu : String) : String :=
  match (ITU_TO_ISO2.find? (fun kv => kv.1 = pyUpper (pyStrip itu))).map (·.2) with
  | some iso2 => if iso2 ≠ "" then iso2_to_flag iso2 else "🌐"
  | none => "🌐"

/-! ## Raw and normalized entries -/

/-- The value found under `"frequency_khz"` in a raw dict: absent, an
integer, or a string (the shapes the upstream JSON can carry). -/
inductive FreqVal : Type
  | missing
  | int (n : Int)
  | str (s : String)
deriving DecidableEq

/-- `int(entry.get("frequency_khz", 0) or 0)`: a missing key defaults to
`0`; a falsy value (`0`, `""`) is replaced by `0`; a non-empty string goes
through `int(...)`, which raises (`none`) when non-numeric. -/
def coerceFreq : FreqVal → Option Int
  | .missing => some 0
  | .int n => some n
  | .str s => if s = "" then some 0 else pyIntOfStr s

/-- One raw schedule record (a JSON dict); non-frequency fields are either
absent or strings. -/
structure RawEntry where
  frequency_khz : FreqVal := .missing
  time_on : Option String := none
  time_off : Option String := none
  days : Option String := none
  itu : Option String := none
  station : Option String := none
  language : Option String := none
  target : Option String := none
  remarks : Option String := none
deriving DecidableEq

/-- A normalized entry: the dict produced by `_normalize_entry`. -/
structure NEntry where
  frequency_khz : Int
  time_on : String
  time_off : String
  days_raw : String
  itu : String
  station : String
  language : String
  target : String
  remarks : String
deriving DecidableEq

/-- `_normalize_entry(entry)`; `none` models the `ValueError` raised by
`int(...)` on a non-numeric frequency string. -/
def normalize_entry (entry : RawEntry) : Option NEntry :=
  (coerceFreq entry.frequency_khz).map fun f =>
    { frequency_khz := f
      time_on := pyStrip (entry.time_on.getD "")
      time_off := pyStrip (entry.time_off.getD "")
      days_raw := pyStrip (entry.days.getD "")
      itu := pyStrip (entry.itu.getD "")
      station := pyStrip (entry.station.getD "")
      language := pyStrip (entry.language.getD "")
      target := pyStrip (entry.target.getD "")
      remarks := pyStrip (entry.remarks.getD "") }

/-! ## The merge engine `_merge_entries` -/

/-- The `day_identity` token of the merge key. -/
def day_identity (days_raw : String) : String :=
  match extract_day_set days_raw with
  | some _ => "__parsed__"
  | none => "__raw__:" ++ pyLower days_raw

/-- The 9-component merge key. -/
structure MergeKey where
  frequency_khz : Int
  time_on : String
  time_off : String
  itu : String
  station : String
  language : String
  target : String
  remarks : String
  identity : String
deriving DecidableEq

def keyOf (n : NEntry) : MergeKey :=
  { frequency_khz := n.frequency_khz
    time_on := n.time_on
    time_off := n.time_off
    itu := n.itu
    station := n.station
    language := n.language
    target := n.target
    remarks := n.remarks
    identity := day_identity n.days_raw }

/-- The value stored in the Python `grouped` dict: the first member's
normalized fields, the accumulated `_day_set`, and `day_set_known`. -/
structure Group where
  entry : NEntry
  dayset : DaySet
  known : Bool
deriving DecidableEq

/-- Process one normalized entry against the ordered association list that
models the (insertion-ordered) `grouped` dict. -/
def stepGroup (gs : List (MergeKey × Group)) (n : NEntry) : List (MergeKey × Group) :=
  let k := keyOf n
  let ds := extract_day_set n.days_raw
  if gs.any (fun kg => kg.1 = k) then
    match ds with
    | some s =>
        gs.map (fun kg =>
          if kg.1 = k then (kg.1, { kg.2 with dayset := kg.2.dayset.union s }) else kg)
    | none => gs
  else
    gs ++ [(k, { entry := n, dayset := ds.getD DaySet.empty, known := ds.isSome })]

def groupEntries (l : List NEntry) : List (MergeKey × Group) :=
  l.foldl stepGroup []

/-- A canonical (merged) entry: the dict appended to `merged`. -/
structure CEntry where
  frequency_khz : Int
  time_on : String
  time_off : String
  days_raw : String
  itu : String
  station : String
  language : String
  target : String
  remarks : String
  day_set : List Day
  day_set_known : Bool
  days : String
  flag : String
  time_display : String
  time_days_display : String
  lang_target_display : String
  is_live_now : Bool := false
deriving DecidableEq

/-- Turn one group into its canonical entry (the body of the
`for item in grouped.values()` loop). -/
def canonOfGroup (g : Group) : CEntry :=
  let dset := if g.known then g.dayset else DaySet.empty
  let days := day_set_to_display dset g.entry.days_raw
  let time_display := format_time_range g.entry.time_on g.entry.time_off
  { frequency_khz := g.entry.frequency_khz
    time_on := g.entry.time_on
    time_off := g.entry.time_off
    days_raw := g.entry.days_raw
    itu := g.entry.itu
    station := g.entry.station
    language := g.entry.language
    target := g.entry.target
    remarks := g.entry.remarks
    day_set := DAY_ORDER.filter (fun d => dset.mem d)
    day_set_known := g.known
    days := days
    flag := flag_from_itu g.entry.itu
    time_display := time_display
    time_days_display := join_non_empty time_display days
    lang_target_display := join_non_empty g.entry.language g.entry.target }

/-- An all-empty canonical entry, used as the base of test fixtures and as
the default of safe list indexing in concrete statements. -/
def blankCEntry : CEntry :=
  { frequency_khz := 0, time_on := "", time_off := "", days_raw := "", itu := ""
    station := "", language := "", target := "", remarks := "", day_set := []
    day_set_known := false, days := "", flag := "", time_display := ""
    time_days_display := "", lang_target_display := "" }

/-- Sentinel-based start minute used by the final sort. -/
def startSortVal (time_on : String) : Nat :=
  match parse_hhmm time_on with
  | some m => m
  | none => 10000

/-- The Python sort key
`(start-with-sentinel, time_off, frequency_khz, station.lower())`,
as a lexicographically ordered 4-tuple. -/
def sortKey (e : CEntry) : Lex (Nat × Lex (String × Lex (Int × String))) :=
  toLex (startSortVal e.time_on,
    toLex (e.time_off, toLex (e.frequency_khz, pyLower e.station)))

def entryLE (a b : CEntry) : Prop := sortKey a ≤ sortKey b

instance : DecidableRel entryLE :=
  fun a b => inferInstanceAs (Decidable (sortKey a ≤ sortKey b))

instance : IsTotal CEntry entryLE := ⟨fun a b => le_total (sortKey a) (sortKey b)⟩

instance : IsTrans CEntry entryLE := ⟨fun _ _ _ hab hbc => le_trans hab hbc⟩

/-- `_merge_entries` after normalization: group, canonicalize, and sort.
`merged.sort(key=...)` is Python's stable sort; `List.insertionSort` is the
stable sort with the same total preorder, hence produces the same list. -/
def merge_entries_norm (l : List NEntry) : List CEntry :=
  List.insertionSort entryLE ((groupEntries l).map (fun kg => canonOfGroup kg.2))

/-- Normalize every raw entry in order; `none` models the exception the
first failing `_normalize_entry` call raises. -/
def normalizeAll : List RawEntry → Option (List NEntry)
  | [] => some []
  | r :: rest =>
    match normalize_entry r with
    | none => none
    | some n => (normalizeAll rest).map (n :: ·)

/-- `_merge_entries(raw_entries)`; `none` models an exception raised while
normalizing one of the raw dicts. -/
def merge_entries (raw_entries : List RawEntry) : Option (List CEntry) :=
  (normalizeAll raw_entries).map merge_entries_norm

/-! ## Liveness -/

/-- The slice of `datetime.now(timezone.utc)` that the evaluator reads:
`weekday()` (0 = Monday), `hour`, `minute`. -/
structure NowUTC where
  weekday : Fin 7
  hour : Nat
  minute : Nat

/-- `_day_matches(days, weekday_utc)`. -/
def day_matches (days : String) (weekday_utc : Fin 7) : Bool :=
  match extract_day_set days with
  | none => true
  | some s => s.mem (dayAtNat weekday_utc.val)

/-- `_entry_matches_weekday(entry, weekday_idx)`. -/
def entry_matches_weekday (entry : CEntry) (weekday_idx : Fin 7) : Bool :=
  if entry.day_set_known then
    decide (dayAtNat weekday_idx.val ∈ entry.day_set)
  else day_matches entry.days_raw weekday_idx

/-- `_is_live_now(entry, now_utc)`. -/
def is_live_now (entry : CEntry) (now_utc : NowUTC) : Bool :=
  if ¬ entry_matches_weekday entry now_utc.weekday then false
  else
    match parse_hhmm entry.time_on, parse_hhmm entry.time_off with
    | some startMin, some endMin =>
        let now_minutes := now_utc.hour * 60 + now_utc.minute
        if startMin = endMin then true
        else if startMin < endMin then
          decide (startMin ≤ now_minutes ∧ now_minutes < endMin)
        else decide (now_minutes ≥ startMin ∨ now_minutes < endMin)
    | _, _ => false

/-! ## The frequency/time scatter plot `_build_freq_time_plot`

Float arithmetic is modelled exactly over `Rat`; `round(x, 2)` is
round-half-to-even of the exact value. -/

/-- Round to the nearest integer, ties to even (Python `round`). -/
def roundHalfEven (q : ℚ) : ℤ :=
  let f := ⌊q⌋
  let r := q - (f : ℚ)
  if r < 1/2 then f
  else if r > 1/2 then f + 1
  else if f % 2 = 0 then f else f + 1

/-- Python `round(x, 2)`. -/
def pyRound2 (q : ℚ) : ℚ := (roundHalfEven (q * 100) : ℚ) / 100

/-- Python `int(a / b)` for integers `a`, `b` with `b > 0`: the quotient is
computed exactly and truncated toward zero (`Int.tdiv`), which agrees with
the float evaluation at the magnitudes the program handles. -/
def pyIntDiv (a b : Int) : Int := a.tdiv b

/-- Zero-pad a number below 1000 to three digits. -/
def pad3 (n : Nat) : String :=
  if n < 10 then "00" ++ toString n
  else if n < 100 then "0" ++ toString n
  else toString n

/-- The numeric part of `f"{khz / 1000:.3f}"` for a non-negative integer
`khz` (exact: an integer over 1000 has exactly three decimals). -/
def mhzNum (khz : Int) : String :=
  toString (khz / 1000) ++ "." ++ pad3 (khz % 1000).toNat

/-- One scatter point. -/
structure PlotPoint where
  x : ℚ
  y : ℚ
  freq_khz : Int
  freq_display : String
  station : String
  time_display : String
  lang_target : String
  remarks : String
  flag : String
  is_live_now : Bool
deriving DecidableEq

/-- The dict returned by `_build_freq_time_plot`. -/
structure FreqTimePlot where
  width : Int
  height : Int
  left : Int
  top : Int
  right : Int
  bottom : Int
  min_freq : Int
  max_freq : Int
  points : List PlotPoint
deriving DecidableEq

/-- `min(freqs)` for a non-empty list, `1000` for an empty one. -/
def minFreqOf (freqs : List Int) : Int :=
  match freqs with
  | [] => 1000
  | f :: fs => fs.foldl min f

/-- `max(freqs)` for a non-empty list, `30000` for an empty one. -/
def maxFreqOf (freqs : List Int) : Int :=
  match freqs with
  | [] => 30000
  | f :: fs => fs.foldl max f

/-- The positive frequencies of the entry list, in order. -/
def posFreqs (entries : List CEntry) : List Int :=
  (entries.filter (fun e => e.frequency_khz > 0)).map (fun e => e.frequency_khz)

/-- The body of the point loop of `_build_freq_time_plot` for one entry,
given the (already widened) frequency range; `none` models `continue`.
The canvas constants are the function's locals
(`plot_w = 1500`, `plot_h = 900`, margins 70/20/20/30). -/
def plotPointOf (min_freq max_freq : Int) (entry : CEntry) : Option PlotPoint :=
  let usable_w : Int := 1500 - 70 - 20
  let usable_h : Int := 900 - 20 - 30
  match parse_hhmm entry.time_on with
  | none => none
  | some startMin =>
    if entry.frequency_khz ≤ (0 : Int) then none
    else
      let x : ℚ := ((70 : Int) : ℚ) +
        (((entry.frequency_khz - min_freq : Int) : ℚ) /
            ((max_freq - min_freq : Int) : ℚ)) *
          (usable_w : ℚ)
      let y : ℚ := ((20 : Int) : ℚ) + ((startMin : ℚ) / 1439) * (usable_h : ℚ)
      some
        { x := pyRound2 x
          y := pyRound2 y
          freq_khz := entry.frequency_khz
          freq_display := mhzNum entry.frequency_khz ++ " MHz"
          station := entry.station
          time_display := entry.time_days_display
          lang_target := entry.lang_target_display
          remarks := entry.remarks
          flag := entry.flag
          is_live_now := entry.is_live_now }

/-- `_build_freq_time_plot(entries)`. -/
def build_freq_time_plot (entries : List CEntry) : FreqTimePlot :=
  let freqs := posFreqs entries
  let min_freq := minFreqOf freqs
  let max_freq0 := maxFreqOf freqs
  let max_freq := if min_freq = max_freq0 then min_freq + 1 else max_freq0
  { width := 1500
    height := 900
    left := 70
    top := 20
    right := 20
    bottom := 30
    min_freq := min_freq
    max_freq := max_freq
    points := entries.filterMap (plotPointOf min_freq max_freq) }

/-! ## Frequency jump markers `_build_freq_jumps` -/

/-- One jump marker dict. -/
structure FreqJump where
  index : Int
  ratio : ℚ
  start_khz : Int
  start_label : String
  label : String
deriving DecidableEq

/-- `sorted({int(e["frequency_khz"]) for e in entries if … > 0})`. -/
def sortedDistinctPos (entries : List CEntry) : List Int :=
  List.insertionSort (· ≤ ·) (posFreqs entries).dedup

/-- `_build_freq_jumps(entries, segments=10)`.  The float expressions
`int((i * n) / segments)` and `int((((i + 1) * n) / segments) - 1)` are
modelled exactly: the second equals the truncated quotient
`((i + 1) * n - segments) / segments`.  Both are non-negative because
`(i + 1) * n ≥ 1` keeps the second value above `-1`, so `Int.toNat`
changes nothing. -/
def build_freq_jumps (entries : List CEntry) (segments : Int := 10) : List FreqJump :=
  let freqs := sortedDistinctPos entries
  if freqs.isEmpty || segments ≤ 1 then []
  else
    let n := freqs.length
    (List.range segments.toNat).map fun i =>
      let start_idx := min (n - 1) (pyIntDiv ((i : Int) * n) segments).toNat
      let end_idx :=
        min (n - 1) (pyIntDiv (((i : Int) + 1) * n - segments) segments).toNat
      let startF := freqs.getD start_idx 0
      let endF := freqs.getD end_idx 0
      { index := (i : Int) + 1
        ratio := (start_idx : ℚ) / (max 1 (n - 1) : ℚ)
        start_khz := startF
        start_label := mhzNum startF ++ " MHz"
        label := mhzNum startF ++ "-" ++ mhzNum endF ++ " MHz" }

/-! ## Fixtures, spec-side definitions, and invariant predicates used by the claims -/

/-- The raw entry of claim C1: time-on `"2300"`, time-off `"0100"`,
day text `"mo"` (parsed: known day-set `{mo}`). -/
def c1raw : RawEntry :=
  { frequency_khz := .int 6070, time_on := some "2300", time_off := some "0100",
    days := some "mo" }

/-- The canonical entry the pipeline produces from `c1raw`. -/
def c1entry : CEntry := ((merge_entries [c1raw]).getD []).getD 0 blankCEntry

/-- A raw entry whose frequency field holds the string `"abc"`. -/
def c2raw : RawEntry := { frequency_khz := .str "abc" }

/-- The frequency-field shapes that `int(entry.get("frequency_khz", 0) or 0)`
survives: a missing key, an integer, the empty string, or a numeric string. -/
def freqParses : FreqVal → Prop
  | .missing => True
  | .int _ => True
  | .str s => s = "" ∨ (pyIntOfStr s).isSome = true

/-- Modelled on the spec's wording: the inclusive walk forward from `a` to
`b` through the fixed week order, wrapping around the week when needed. -/
def specDayWalk (a b : Day) : List Day :=
  (List.range (((dayIdx b + 7 - dayIdx a) % 7) + 1)).map
    (fun j => dayAtNat ((dayIdx a + j) % 7))

/-- The day set collected by the spec's walk. -/
def specDayWalkSet (a b : Day) : DaySet :=
  (specDayWalk a b).foldl DaySet.insert DaySet.empty

/-- Twenty-five entries carrying the distinct positive frequencies
`1, 2, …, 25` kHz. -/
def c8entries : List CEntry :=
  (List.range 25).map (fun i => { blankCEntry with frequency_khz := (i : Int) + 1 })

/-- The single-entry dataset of the C6 counterexample: frequency 5 kHz
(the minimum observed positive frequency), time-on `"0600"` (the earliest
parsable start time). -/
def c6entries : List CEntry :=
  [{ blankCEntry with frequency_khz := 5, time_on := "0600" }]

/-- The witness entry for `c6_scatter_margins_amended`: minimum (only)
frequency and start `"0000"` (minute 0). -/
def c6wEntry : CEntry := { blankCEntry with frequency_khz := 5, time_on := "0000" }

/-- The normalized entry produced from a raw entry `r` whose frequency
coerced to `f`, with the day text replaced by `d` (assumed
whitespace-free, as `"mo"`/`"we"` are). -/
def normWithDays (r : RawEntry) (f : Int) (d : String) : NEntry :=
  { frequency_khz := f
    time_on := pyStrip (r.time_on.getD "")
    time_off := pyStrip (r.time_off.getD "")
    days_raw := d
    itu := pyStrip (r.itu.getD "")
    station := pyStrip (r.station.getD "")
    language := pyStrip (r.language.getD "")
    target := pyStrip (r.target.getD "")
    remarks := pyStrip (r.remarks.getD "") }

/-- The invariant maintained for every group of the `grouped` dict. -/
def GoodGroup (kg : MergeKey × Group) : Prop :=
  kg.1 = keyOf kg.2.entry ∧
  kg.2.known = (extract_day_set kg.2.entry.days_raw).isSome ∧
  (kg.2.known = true → kg.2.dayset ≠ DaySet.empty) ∧
  (kg.2.known = false → kg.2.dayset = DaySet.empty)

/-- A canonical entry viewed as a raw dict again, as the idempotence
property feeds it back into `_merge_entries` (each field is present; the
`days` field carries the display label, exactly as the merged dict's
`"days"` key does). -/
def canonToRaw (c : CEntry) : RawEntry :=
  { frequency_khz := .int c.frequency_khz
    time_on := some c.time_on
    time_off := some c.time_off
    days := some c.days
    itu := some c.itu
    station := some c.station
    language := some c.language
    target := some c.target
    remarks := some c.remarks }

/-- The normalized entry `_normalize_entry` produces from `canonToRaw c`. -/
def reStrip (c : CEntry) : NEntry :=
  { frequency_khz := c.frequency_khz
    time_on := pyStrip c.time_on
    time_off := pyStrip c.time_off
    days_raw := pyStrip c.days
    itu := pyStrip c.itu
    station := pyStrip c.station
    language := pyStrip c.language
    target := pyStrip c.target
    remarks := pyStrip c.remarks }

/-- The merge keys together with their accumulated day-set unions. -/
def mergeSummary (l : List NEntry) : List (MergeKey × DaySet) :=
  (groupEntries l).map (fun kg => (kg.1, kg.2.dayset))

/-- All text fields of a normalized entry are `strip`-invariant. -/
def strippedEntry (n : NEntry) : Prop :=
  pyStrip n.time_on = n.time_on ∧ pyStrip n.time_off = n.time_off ∧
  pyStrip n.days_raw = n.days_raw ∧ pyStrip n.itu = n.itu ∧
  pyStrip n.station = n.station ∧ pyStrip n.language = n.language ∧
  pyStrip n.target = n.target ∧ pyStrip n.remarks = n.remarks

/-! ## Claim C1: overnight liveness -/

/-- **C1, counterexample.**  The claim asserts that the entry with time-on
`"2300"`, time-off `"0100"` and known day-set `{mo}` is live at *Tuesday*
00:30 UTC.  In the code, `_is_live_now` first requires
`_entry_matches_weekday`, which tests membership of the *current* weekday
(`tu`) in the day-set `{mo}` and fails, so the entry is **not** live at
Tuesday 00:30 (weekday index 1). -/
theorem c1_tuesday_midnight_counterexample :
    c1entry.time_on = "2300" ∧ c1entry.time_off = "0100" ∧
    c1entry.day_set_known = true ∧ c1entry.day_set = [Day.mo] ∧
    is_live_now c1entry ⟨1, 0, 30⟩ = false := by decide

/-- **C1, amended.**  For the entry with time-on `"2300"`, time-off
`"0100"`, known day-set `{mo}`: it is live at Monday 23:30 UTC; it is
**not** live at Tuesday 00:30 UTC, because the weekday match uses the
current day only (Tuesday ∉ {mo}) even though the window crosses
midnight; and it is not live at Wednesday 00:30 UTC either. -/
theorem c1_overnight_liveness_amended :
    c1entry.time_on = "2300" ∧ c1entry.time_off = "0100" ∧
    c1entry.day_set_known = true ∧ c1entry.day_set = [Day.mo] ∧
    is_live_now c1entry ⟨0, 23, 30⟩ = true ∧
    is_live_now c1entry ⟨1, 0, 30⟩ = false ∧
    is_live_now c1entry ⟨2, 0, 30⟩ = false := by decide

/-! ## Claim C2: normalization never raises -/

/-- **C2, counterexample.**  The claim asserts `normalize` returns a
`NormalizedEntry` without raising for *every* raw entry, coercing the
non-numeric frequency string `"abc"` to `0`.  In the code,
`int(entry.get("frequency_khz", 0) or 0)` evaluates `int("abc")` (the
string is truthy, so `or 0` does not replace it), which raises
`ValueError`; the model returns `none`, not `some` of an entry with
frequency `0`. -/
theorem c2_nonnumeric_freq_counterexample : normalize_entry c2raw = none := by decide

/-- **C2, amended.**  For every raw entry whose frequency field is missing,
an integer, empty, or a numeric string, `normalize` returns a
`NormalizedEntry` without raising; a missing or empty frequency coerces to
`0`, and every other missing field defaults to the empty string.  (A
non-empty non-numeric frequency string such as `"abc"` instead raises
`ValueError` — see the counterexample.) -/
theorem c2_normalize_defaults_amended (r : RawEntry) (h : freqParses r.frequency_khz) :
    ∃ n, normalize_entry r = some n ∧
      (r.frequency_khz = .missing → n.frequency_khz = 0) ∧
      (r.frequency_khz = .str "" → n.frequency_khz = 0) ∧
      (r.time_on = none → n.time_on = "") ∧
      (r.time_off = none → n.time_off = "") ∧
      (r.days = none → n.days_raw = "") ∧
      (r.itu = none → n.itu = "") ∧
      (r.station = none → n.station = "") ∧
      (r.language = none → n.language = "") ∧
      (r.target = none → n.target = "") ∧
      (r.remarks = none → n.remarks = "") := by
  have hf : ∃ f, coerceFreq r.frequency_khz = some f ∧
      (r.frequency_khz = .missing → f = 0) ∧ (r.frequency_khz = .str "" → f = 0) := by
    cases hv : r.frequency_khz with
    | missing => exact ⟨0, rfl, fun _ => rfl, by simp⟩
    | int n => exact ⟨n, rfl, by simp, by simp⟩
    | str s =>
      rw [hv] at h
      by_cases hs : s = ""
      · subst hs
        exact ⟨0, rfl, by simp, fun _ => rfl⟩
      · rcases h with h | h
        · exact absurd h hs
        · obtain ⟨f, hfv⟩ := Option.isSome_iff_exists.mp h
          refine ⟨f, ?_, by simp, by simp [hs]⟩
          simpa [coerceFreq, hs] using hfv
  obtain ⟨f, hf, hmiss, hempty⟩ := hf
  have hex : normalize_entry r = some
      { frequency_khz := f
        time_on := pyStrip (r.time_on.getD "")
        time_off := pyStrip (r.time_off.getD "")
        days_raw := pyStrip (r.days.getD "")
        itu := pyStrip (r.itu.getD "")
        station := pyStrip (r.station.getD "")
        language := pyStrip (r.language.getD "")
        target := pyStrip (r.target.getD "")
        remarks := pyStrip (r.remarks.getD "") } := by
    unfold normalize_entry
    rw [hf]
    rfl
  refine ⟨_, hex, hmiss, hempty, ?_, ?_, ?_, ?_, ?_, ?_, ?_, ?_⟩ <;>
    · intro hnone
      simp only [hnone]
      rfl

/-- Witness for `c2_normalize_defaults_amended` at the all-default raw
entry (every field missing). -/
theorem c2_normalize_defaults_witness :
    ∃ n, normalize_entry ({} : RawEntry) = some n ∧
      (({} : RawEntry).frequency_khz = .missing → n.frequency_khz = 0) ∧
      (({} : RawEntry).frequency_khz = .str "" → n.frequency_khz = 0) ∧
      (({} : RawEntry).time_on = none → n.time_on = "") ∧
      (({} : RawEntry).time_off = none → n.time_off = "") ∧
      (({} : RawEntry).days = none → n.days_raw = "") ∧
      (({} : RawEntry).itu = none → n.itu = "") ∧
      (({} : RawEntry).station = none → n.station = "") ∧
      (({} : RawEntry).language = none → n.language = "") ∧
      (({} : RawEntry).target = none → n.target = "") ∧
      (({} : RawEntry).remarks = none → n.remarks = "") :=
  c2_normalize_defaults_amended {} trivial

/-! ## Claim C5: day ranges expand by the forward-wrapping walk -/

/-- **C5.**  For every pair of valid two-letter weekday abbreviations `A`,
`B`, `parse_days` on `"A-B"` returns exactly the inclusive forward walk
from `A` to `B` through the week order `mo,tu,we,th,fr,sa,su`, wrapping
around the week when `A`'s index is after `B`'s; in particular
`parse_days("fr-mo") = {fr, sa, su, mo}`. -/
theorem c5_day_range_walk :
    (∀ a b : Day,
      extract_day_set (dayCode a ++ "-" ++ dayCode b) = some (specDayWalkSet a b)) ∧
    extract_day_set "fr-mo" =
      some ⟨true, false, false, false, true, true, true⟩ := by decide

/-! ## Claim C8: frequency jump markers -/

/-- **C8.**  Frequency-jump markers for 10 segments over the distinct
positive frequencies `[1, …, 25]` are exactly 10 markers with
non-decreasing `start_khz` whose last marker's bucket ends at frequency
25 (its span label is `"0.023-0.025 MHz"`); and no markers are produced
when there are no positive frequencies or when the segment count is ≤ 1. -/
theorem c8_freq_jump_markers :
    (build_freq_jumps c8entries 10).length = 10 ∧
    List.Chain' (· ≤ ·) ((build_freq_jumps c8entries 10).map (fun j => j.start_khz)) ∧
    (build_freq_jumps c8entries 10).getLast?.map (fun j => j.label) =
      some "0.023-0.025 MHz" ∧
    (∀ (entries : List CEntry) (segments : Int),
      posFreqs entries = [] → build_freq_jumps entries segments = []) ∧
    (∀ (entries : List CEntry) (segments : Int),
      segments ≤ 1 → build_freq_jumps entries segments = []) := by
  have hs : (build_freq_jumps c8entries 10).map (fun j => j.start_khz) =
      [1, 3, 6, 8, 11, 13, 16, 18, 21, 23] := by decide
  refine ⟨by decide, ?_, by decide, ?_, ?_⟩
  · rw [hs]
    norm_num [List.chain'_cons, List.chain'_singleton]
  · intro entries segments h
    have hempty : sortedDistinctPos entries = [] := by
      rw [sortedDistinctPos, h]
      rfl
    simp [build_freq_jumps, hempty]
  · intro entries segments h
    simp [build_freq_jumps, h]

/-- Witness for the two conditional parts of `c8_freq_jump_markers`:
no positive frequencies (empty entry list), and segment count 1. -/
theorem c8_freq_jump_markers_witness :
    build_freq_jumps [] 10 = [] ∧ build_freq_jumps c8entries 1 = [] :=
  ⟨c8_freq_jump_markers.2.2.2.1 [] 10 rfl,
   c8_freq_jump_markers.2.2.2.2 c8entries 1 (le_refl 1)⟩

/-! ## Claim C9: the scatter plot never divides by zero -/

lemma foldl_min_le (f : Int) (fs : List Int) : fs.foldl min f ≤ f := by
  induction fs generalizing f with
  | nil => exact le_refl f
  | cons g gs ih => exact le_trans (ih (min f g)) (min_le_left f g)

lemma le_foldl_max (f : Int) (fs : List Int) : f ≤ fs.foldl max f := by
  induction fs generalizing f with
  | nil => exact le_refl f
  | cons g gs ih => exact le_trans (le_max_left f g) (ih (max f g))

lemma minFreqOf_le_maxFreqOf (l : List Int) : minFreqOf l ≤ maxFreqOf l := by
  cases l with
  | nil => norm_num [minFreqOf, maxFreqOf]
  | cons f fs => exact le_trans (foldl_min_le f fs) (le_foldl_max f fs)

lemma plot_min_freq (entries : List CEntry) :
    (build_freq_time_plot entries).min_freq = minFreqOf (posFreqs entries) := rfl

lemma plot_max_freq (entries : List CEntry) :
    (build_freq_time_plot entries).max_freq =
      if minFreqOf (posFreqs entries) = maxFreqOf (posFreqs entries)
      then minFreqOf (posFreqs entries) + 1 else maxFreqOf (posFreqs entries) := rfl

/-- **C9.**  The scatter-plot builder never divides by zero: the stored
frequency range always satisfies `min_freq < max_freq` (the interpolation
denominator `max_freq - min_freq` is positive), when the minimum and
maximum observed positive frequencies coincide the range is widened by
exactly one unit, and the empty entry list yields a well-formed projection
with no points and the default `1000`–`30000` range. -/
theorem c9_scatter_no_div_by_zero (entries : List CEntry) :
    (build_freq_time_plot entries).min_freq < (build_freq_time_plot entries).max_freq ∧
    (minFreqOf (posFreqs entries) = maxFreqOf (posFreqs entries) →
      (build_freq_time_plot entries).max_freq =
        (build_freq_time_plot entries).min_freq + 1) ∧
    (build_freq_time_plot []).points = [] ∧
    (build_freq_time_plot []).min_freq = 1000 ∧
    (build_freq_time_plot []).max_freq = 30000 := by
  refine ⟨?_, ?_, rfl, rfl, by decide⟩
  · rw [plot_min_freq, plot_max_freq]
    by_cases h : minFreqOf (posFreqs entries) = maxFreqOf (posFreqs entries)
    · rw [if_pos h]
      exact lt_add_one _
    · rw [if_neg h]
      exact lt_of_le_of_ne (minFreqOf_le_maxFreqOf _) h
  · intro h
    rw [plot_max_freq, plot_min_freq, if_pos h]

/-- Witness for `c9_scatter_no_div_by_zero` at a one-entry list whose
minimum and maximum positive frequency coincide, discharging the widening
hypothesis. -/
theorem c9_scatter_no_div_by_zero_witness :
    (build_freq_time_plot [{ blankCEntry with frequency_khz := 5 }]).max_freq =
      (build_freq_time_plot [{ blankCEntry with frequency_khz := 5 }]).min_freq + 1 :=
  (c9_scatter_no_div_by_zero [{ blankCEntry with frequency_khz := 5 }]).2.1 (by decide)

/-! ## Claim C6: scatter points at the margins -/

lemma roundHalfEven_intCast (z : ℤ) : roundHalfEven (z : ℚ) = z := by
  unfold roundHalfEven
  rw [Int.floor_intCast]
  norm_num

lemma pyRound2_intCast (z : ℤ) : pyRound2 (z : ℚ) = (z : ℚ) := by
  unfold pyRound2
  have h1 : ((z : ℚ) * 100) = ((z * 100 : ℤ) : ℚ) := by push_cast; ring
  rw [h1, roundHalfEven_intCast]
  push_cast
  rw [mul_div_assoc]
  norm_num

/-- Evaluation of the point loop body on an entry with a parsable start
time and a positive frequency. -/
lemma plotPointOf_eq (mn mx : Int) (e : CEntry) (m : Nat)
    (hm : parse_hhmm e.time_on = some m) (hf : 0 < e.frequency_khz) :
    plotPointOf mn mx e = some
      { x := pyRound2 (((70 : Int) : ℚ) +
          (((e.frequency_khz - mn : Int) : ℚ) / ((mx - mn : Int) : ℚ)) *
            ((1500 - 70 - 20 : Int) : ℚ))
        y := pyRound2 (((20 : Int) : ℚ) + ((m : ℚ) / 1439) * ((900 - 20 - 30 : Int) : ℚ))
        freq_khz := e.frequency_khz
        freq_display := mhzNum e.frequency_khz ++ " MHz"
        station := e.station
        time_display := e.time_days_display
        lang_target := e.lang_target_display
        remarks := e.remarks
        flag := e.flag
        is_live_now := e.is_live_now } := by
  simp only [plotPointOf, hm]
  rw [if_neg (not_le.mpr hf)]

/-- **C6, counterexample.**  The claim asserts the point of the entry with
the earliest parsable start time has `y` exactly at the top margin
coordinate (20).  For the single entry with start `"0600"`, the code
computes `y = 20 + (360 / 1439) * 850`, which rounds to `232.65 ≠ 20`:
`y` is interpolated over the whole day, not anchored to the dataset's
earliest start. -/
theorem c6_top_margin_counterexample :
    (build_freq_time_plot c6entries).top = 20 ∧
    ((build_freq_time_plot c6entries).points.map (fun p => p.y)) = [(4653 : ℚ) / 20] ∧
    ((4653 : ℚ) / 20) ≠ 20 := by
  refine ⟨rfl, by with_unfolding_all rfl, by norm_num⟩

/-- **C6, amended.**  Every entry with a positive frequency and parsable
start time produces a scatter point; the point of an entry holding the
dataset's minimum observed positive frequency has `x` exactly at the left
margin coordinate, and its `y` is exactly at the top margin coordinate
when (and only in the amended form when) its start minute is `0`
(time-on midnight). -/
theorem c6_scatter_margins_amended (entries : List CEntry) (e : CEntry)
    (he : e ∈ entries) (m : Nat) (hm : parse_hhmm e.time_on = some m)
    (hf : 0 < e.frequency_khz) :
    ∃ p ∈ (build_freq_time_plot entries).points,
      p.freq_khz = e.frequency_khz ∧
      (e.frequency_khz = minFreqOf (posFreqs entries) →
        p.x = ((build_freq_time_plot entries).left : ℚ)) ∧
      (m = 0 → p.y = ((build_freq_time_plot entries).top : ℚ)) := by
  have hpe := plotPointOf_eq (minFreqOf (posFreqs entries))
    (if minFreqOf (posFreqs entries) = maxFreqOf (posFreqs entries)
     then minFreqOf (posFreqs entries) + 1 else maxFreqOf (posFreqs entries)) e m hm hf
  refine ⟨_, List.mem_filterMap.mpr ⟨e, he, hpe⟩, rfl, ?_, ?_⟩
  · intro hmin
    show pyRound2 _ = ((70 : Int) : ℚ)
    rw [hmin, sub_self, Int.cast_zero, zero_div, zero_mul, add_zero, pyRound2_intCast]
  · intro hm0
    show pyRound2 _ = ((20 : Int) : ℚ)
    rw [hm0, Nat.cast_zero, zero_div, zero_mul, add_zero, pyRound2_intCast]

/-- Witness for `c6_scatter_margins_amended` at the one-entry dataset
`[c6wEntry]`, discharging all hypotheses. -/
theorem c6_scatter_margins_witness :
    ∃ p ∈ (build_freq_time_plot [c6wEntry]).points,
      p.freq_khz = c6wEntry.frequency_khz ∧
      (c6wEntry.frequency_khz = minFreqOf (posFreqs [c6wEntry]) →
        p.x = ((build_freq_time_plot [c6wEntry]).left : ℚ)) ∧
      (0 = 0 → p.y = ((build_freq_time_plot [c6wEntry]).top : ℚ)) :=
  c6_scatter_margins_amended [c6wEntry] c6wEntry (by decide) 0 (by decide) (by decide)

/-! ## Claim C3: merging `"mo"` and `"we"` twins -/

/-- **C3.**  Any two raw entries identical in every field except that
their day texts are `"mo"` and `"we"` merge into exactly one canonical
entry, whose day-set is `{mo, we}` and whose day label is `"Mon,Wed"`.
(The hypothesis states that the shared frequency field is one the
normalizer accepts; both entries parse to known day-sets, so they share
the `"__parsed__"` day-identity and hence the same merge key.) -/
theorem c3_day_text_twins_merge (r : RawEntry) (f : Int)
    (hf : coerceFreq r.frequency_khz = some f) :
    ∃ c, merge_entries [{ r with days := some "mo" }, { r with days := some "we" }]
        = some [c] ∧ c.day_set = [Day.mo, Day.we] ∧ c.days = "Mon,Wed" := by
  have h1 : normalize_entry { r with days := some "mo" } = some (normWithDays r f "mo") := by
    unfold normalize_entry
    rw [show ({ r with days := some "mo" } : RawEntry).frequency_khz
        = r.frequency_khz from rfl, hf]
    rfl
  have h2 : normalize_entry { r with days := some "we" } = some (normWithDays r f "we") := by
    unfold normalize_entry
    rw [show ({ r with days := some "we" } : RawEntry).frequency_khz
        = r.frequency_khz from rfl, hf]
    rfl
  have hk : keyOf (normWithDays r f "we") = keyOf (normWithDays r f "mo") := rfl
  have hwe : extract_day_set "we" =
      some ⟨false, false, true, false, false, false, false⟩ := by decide
  have hstep1 : stepGroup [] (normWithDays r f "mo") =
      [(keyOf (normWithDays r f "mo"),
        ⟨normWithDays r f "mo", ⟨true, false, false, false, false, false, false⟩, true⟩)] := rfl
  have hstep2 : stepGroup [(keyOf (normWithDays r f "mo"),
        ⟨normWithDays r f "mo", ⟨true, false, false, false, false, false, false⟩, true⟩)]
      (normWithDays r f "we") =
      [(keyOf (normWithDays r f "mo"),
        ⟨normWithDays r f "mo", ⟨true, false, true, false, false, false, false⟩, true⟩)] := by
    unfold stepGroup
    rw [hk]
    simp [hwe]
    rfl
  have hgroups : groupEntries [normWithDays r f "mo", normWithDays r f "we"] =
      [(keyOf (normWithDays r f "mo"),
        ⟨normWithDays r f "mo", ⟨true, false, true, false, false, false, false⟩, true⟩)] := by
    unfold groupEntries
    rw [List.foldl_cons, List.foldl_cons, List.foldl_nil, hstep1, hstep2]
  have hmap : normalizeAll
      [({ r with days := some "mo" } : RawEntry), { r with days := some "we" }]
      = some [normWithDays r f "mo", normWithDays r f "we"] := by
    simp [normalizeAll, h1, h2]
  refine ⟨canonOfGroup
      ⟨normWithDays r f "mo", ⟨true, false, true, false, false, false, false⟩, true⟩,
    ?_, rfl, rfl⟩
  unfold merge_entries
  rw [hmap, Option.map_some']
  unfold merge_entries_norm
  rw [hgroups]
  rfl

/-- Witness for `c3_day_text_twins_merge` at a concrete base entry. -/
theorem c3_day_text_twins_merge_witness :
    ∃ c, merge_entries
        [{ ({ frequency_khz := .int 6070, station := some "BBC" } : RawEntry) with
            days := some "mo" },
         { ({ frequency_khz := .int 6070, station := some "BBC" } : RawEntry) with
            days := some "we" }]
      = some [c] ∧ c.day_set = [Day.mo, Day.we] ∧ c.days = "Mon,Wed" :=
  c3_day_text_twins_merge { frequency_khz := .int 6070, station := some "BBC" } 6070 rfl

/-! ## Claim C7: canonical ordering -/

/-- Splitting a successful `_merge_entries` run into its normalization and
its pure merge. -/
lemma merge_entries_some {raw : List RawEntry} {out : List CEntry}
    (h : merge_entries raw = some out) :
    ∃ nl, normalizeAll raw = some nl ∧ merge_entries_norm nl = out := by
  unfold merge_entries at h
  cases hm : normalizeAll raw with
  | none => rw [hm] at h; exact absurd h (by simp)
  | some nl => rw [hm, Option.map_some'] at h; exact ⟨nl, rfl, Option.some.inj h⟩

/-- **C7.**  The canonical entry list returned by merge is sorted
ascending by the lexicographic key (parsed start-minute with sentinel
`10000` for unparsable time-on, raw time-off string, frequency, station
lower-cased) — `entryLE` is exactly that key order — and the sentinel is
larger than any parsable time (parsable times are at most 1440 minutes). -/
theorem c7_canonical_ordering :
    (∀ (raw : List RawEntry) (out : List CEntry),
      merge_entries raw = some out → List.Sorted entryLE out) ∧
    (∀ (s : String) (m : Nat), parse_hhmm s = some m → m ≤ 1440 ∧ m < 10000) := by
  constructor
  · intro raw out h
    obtain ⟨nl, -, rfl⟩ := merge_entries_some h
    unfold merge_entries_norm
    exact List.sorted_insertionSort entryLE _
  · intro s m h
    simp only [parse_hhmm] at h
    split_ifs at h with h1 h2 h3 <;>
      obtain rfl := Option.some.inj h <;> omega

/-- Witness for `c7_canonical_ordering` at the singleton input `[c1raw]`. -/
theorem c7_canonical_ordering_witness :
    List.Sorted entryLE ((merge_entries [c1raw]).getD []) :=
  c7_canonical_ordering.1 [c1raw] _ (by decide)

/-! ## Claim C10: the day-set invariant of canonical entries -/

/-- A parsed day-set is never the empty set. -/
lemma extract_ne_empty {s : String} {S : DaySet}
    (h : extract_day_set s = some S) : S ≠ DaySet.empty := by
  simp only [extract_day_set] at h
  split_ifs at h with h1 h2
  · obtain rfl := Option.some.inj h
    decide
  · obtain rfl := Option.some.inj h
    exact h2

lemma raw_tag_ne_parsed (x : String) : "__raw__:" ++ x ≠ "__parsed__" := by
  intro h
  have hd : ("__raw__:" ++ x).data = "__parsed__".data := congrArg String.data h
  rw [String.data_append] at hd
  simp at hd

/-- A group whose key matches the key of an entry with a parsed day-set is
itself a parsed (known) group: the `day_identity` component of the key
separates `"__parsed__"` from every `"__raw__:…"` tag. -/
lemma key_match_known {kg : MergeKey × Group} {n : NEntry} {s : DaySet}
    (hg : GoodGroup kg) (hk : kg.1 = keyOf n)
    (hn : extract_day_set n.days_raw = some s) : kg.2.known = true := by
  obtain ⟨hkey, hknown, -, -⟩ := hg
  by_contra hfalse
  have hne : (extract_day_set kg.2.entry.days_raw) = none := by
    cases hx : extract_day_set kg.2.entry.days_raw with
    | none => rfl
    | some t => rw [hx] at hknown; simp at hknown; exact absurd hknown hfalse
  have hid : (keyOf kg.2.entry).identity = (keyOf n).identity := by rw [← hkey, hk]
  simp only [keyOf, day_identity, hne, hn] at hid
  exact raw_tag_ne_parsed _ hid

lemma DaySet.union_ne_empty_left {s t : DaySet} (h : s ≠ DaySet.empty) :
    s.union t ≠ DaySet.empty := by
  obtain ⟨a1, a2, a3, a4, a5, a6, a7⟩ := s
  obtain ⟨b1, b2, b3, b4, b5, b6, b7⟩ := t
  simp only [DaySet.union, DaySet.empty, ne_eq, DaySet.mk.injEq] at h ⊢
  intro hu
  simp only [Bool.or_eq_false_iff] at hu
  exact h ⟨hu.1.1, hu.2.1.1, hu.2.2.1.1, hu.2.2.2.1.1, hu.2.2.2.2.1.1,
    hu.2.2.2.2.2.1.1, hu.2.2.2.2.2.2.1⟩

/-- One merge step preserves the group invariant. -/
lemma stepGroup_good {gs : List (MergeKey × Group)} (n : NEntry)
    (h : ∀ kg ∈ gs, GoodGroup kg) : ∀ kg ∈ stepGroup gs n, GoodGroup kg := by
  intro kg hkg
  simp only [stepGroup] at hkg
  split_ifs at hkg with hany
  · cases hds : extract_day_set n.days_raw with
    | none =>
      rw [hds] at hkg
      exact h kg hkg
    | some s =>
      rw [hds] at hkg
      obtain ⟨kg0, hkg0, rfl⟩ := List.mem_map.mp hkg
      by_cases hk : kg0.1 = keyOf n
      · rw [if_pos hk]
        have hg0 := h kg0 hkg0
        have hknown : kg0.2.known = true := key_match_known hg0 hk hds
        obtain ⟨hkey, hkn, hne, hemp⟩ := hg0
        exact ⟨hkey, hkn, fun _ => DaySet.union_ne_empty_left (hne hknown),
          fun hf => by rw [hknown] at hf; cases hf⟩
      · rw [if_neg hk]
        exact h kg0 hkg0
  · rcases List.mem_append.mp hkg with hmem | hmem
    · exact h kg hmem
    · obtain rfl := List.mem_singleton.mp hmem
      refine ⟨rfl, rfl, fun hkn => ?_, fun hkn => ?_⟩
      · cases hds : extract_day_set n.days_raw with
        | none => simp [hds] at hkn
        | some s =>
          simp only [hds, Option.getD_some]
          exact extract_ne_empty hds
      · cases hds : extract_day_set n.days_raw with
        | none => simp [hds]
        | some s => simp [hds] at hkn

/-- Every group built by the merge loop satisfies the invariant. -/
lemma groupEntries_good (l : List NEntry) : ∀ kg ∈ groupEntries l, GoodGroup kg := by
  suffices h : ∀ gs, (∀ kg ∈ gs, GoodGroup kg) →
      ∀ kg ∈ l.foldl stepGroup gs, GoodGroup kg by
    exact h [] (by simp)
  induction l with
  | nil => intro gs hgs; simpa using hgs
  | cons n rest ih =>
    intro gs hgs
    rw [List.foldl_cons]
    exact ih _ (stepGroup_good n hgs)

/-- The `DAY_ORDER` filter of a day set is non-nil exactly for non-empty
sets (checked over all 128 sets). -/
lemma daySet_filter_ne_nil (s : DaySet) :
    (DAY_ORDER.filter (fun d => s.mem d) ≠ []) ↔ s ≠ DaySet.empty := by
  obtain ⟨b1, b2, b3, b4, b5, b6, b7⟩ := s
  revert b1 b2 b3 b4 b5 b6 b7
  decide

/-- **C10.**  Every canonical entry produced by merge has a `day_set`
list that is a sublist of `DAY_ORDER` (hence duplicate-free, ordered
Monday-first, and drawn only from the seven codes), and `day_set` is
non-empty exactly when `day_set_known` is true. -/
theorem c10_day_set_invariant (raw : List RawEntry) (out : List CEntry) (c : CEntry)
    (h : merge_entries raw = some out) (hc : c ∈ out) :
    c.day_set.Sublist DAY_ORDER ∧ (c.day_set ≠ [] ↔ c.day_set_known = true) := by
  obtain ⟨nl, hnl, rfl⟩ := merge_entries_some h
  have hc' : c ∈ (groupEntries nl).map (fun kg => canonOfGroup kg.2) := by
    unfold merge_entries_norm at hc
    exact (List.mem_insertionSort entryLE).mp hc
  obtain ⟨kg, hkg, rfl⟩ := List.mem_map.mp hc'
  obtain ⟨hkey, hkn, hne, hemp⟩ := groupEntries_good nl kg hkg
  constructor
  · exact List.filter_sublist _
  · cases hknown : kg.2.known with
    | true =>
      have hdne := hne hknown
      simp only [canonOfGroup, hknown, if_true, eq_self_iff_true, iff_true]
      exact (daySet_filter_ne_nil _).mpr hdne
    | false =>
      have hdeq := hemp hknown
      have hnil : DAY_ORDER.filter (fun d => DaySet.empty.mem d) = [] := by decide
      simp only [canonOfGroup, hknown, if_false, hdeq, hnil, ne_eq, not_true_eq_false,
        false_iff, Bool.false_eq_true, not_false_eq_true]

/-- Witness for `c10_day_set_invariant` at the entry produced from
`c1raw`. -/
theorem c10_day_set_invariant_witness :
    c1entry.day_set.Sublist DAY_ORDER ∧
    (c1entry.day_set ≠ [] ↔ c1entry.day_set_known = true) :=
  c10_day_set_invariant [c1raw] ((merge_entries [c1raw]).getD []) c1entry
    (by decide) (by decide)

/-! ## Claim C4: merge is idempotent

Re-feeding the canonical entries into `_merge_entries` as raw dicts
(`canonToRaw`) re-normalizes them (`reStrip`), regroups, and must
reproduce the same merge keys with the same day-set unions
(`mergeSummary`). -/

lemma dropWhile_head?_not (p : Char → Bool) (l : List Char) :
    ∀ x, (l.dropWhile p).head? = some x → p x = false := by
  induction l with
  | nil => simp [List.dropWhile]
  | cons c cs ih =>
    intro x hx
    rw [List.dropWhile_cons] at hx
    by_cases hc : p c = true
    · rw [if_pos hc] at hx
      exact ih x hx
    · rw [if_neg hc] at hx
      simp only [List.head?_cons, Option.some.injEq] at hx
      subst hx
      simpa using hc

lemma dropWhile_eq_self_of_head? (p : Char → Bool) (l : List Char)
    (h : ∀ x, l.head? = some x → p x = false) : l.dropWhile p = l := by
  cases l with
  | nil => rfl
  | cons c cs =>
    rw [List.dropWhile_cons, if_neg]
    simp [h c rfl]

/-- `str.strip` is idempotent. -/
lemma stripChars_idem (l : List Char) : stripChars (stripChars l) = stripChars l := by
  show List.rdropWhile isPySpace
      (List.dropWhile isPySpace (List.rdropWhile isPySpace (List.dropWhile isPySpace l)))
    = List.rdropWhile isPySpace (List.dropWhile isPySpace l)
  have h1 : List.dropWhile isPySpace
      (List.rdropWhile isPySpace (List.dropWhile isPySpace l))
      = List.rdropWhile isPySpace (List.dropWhile isPySpace l) := by
    apply dropWhile_eq_self_of_head?
    intro x hx
    obtain ⟨t, ht⟩ := List.rdropWhile_prefix isPySpace (l.dropWhile isPySpace)
    cases hr : List.rdropWhile isPySpace (List.dropWhile isPySpace l) with
    | nil => rw [hr] at hx; cases hx
    | cons a as =>
      rw [hr] at hx ht
      simp only [List.head?_cons, Option.some.injEq] at hx
      subst hx
      have hm : (l.dropWhile isPySpace).head? = some a := by rw [← ht]; rfl
      exact dropWhile_head?_not isPySpace l a hm
  rw [h1, List.rdropWhile_idempotent]

lemma pyStrip_idem (s : String) : pyStrip (pyStrip s) = pyStrip s :=
  congrArg String.mk (stripChars_idem s.data)

lemma normalize_canonToRaw (c : CEntry) :
    normalize_entry (canonToRaw c) = some (reStrip c) := rfl

lemma normalizeAll_canonToRaw (out : List CEntry) :
    normalizeAll (out.map canonToRaw) = some (out.map reStrip) := by
  induction out with
  | nil => rfl
  | cons c cs ih => simp [normalizeAll, normalize_canonToRaw, ih]

lemma normalize_stripped {r : RawEntry} {n : NEntry}
    (h : normalize_entry r = some n) : strippedEntry n := by
  unfold normalize_entry at h
  cases hf : coerceFreq r.frequency_khz with
  | none => rw [hf] at h; cases h
  | some f =>
    rw [hf, Option.map_some'] at h
    obtain rfl := Option.some.inj h.symm
    exact ⟨pyStrip_idem _, pyStrip_idem _, pyStrip_idem _, pyStrip_idem _,
      pyStrip_idem _, pyStrip_idem _, pyStrip_idem _, pyStrip_idem _⟩

lemma normalizeAll_mem_stripped {raw : List RawEntry} {nl : List NEntry}
    (h : normalizeAll raw = some nl) : ∀ n ∈ nl, strippedEntry n := by
  induction raw generalizing nl with
  | nil =>
    obtain rfl := Option.some.inj h.symm
    simp
  | cons r rest ih =>
    simp only [normalizeAll] at h
    cases hr : normalize_entry r with
    | none => rw [hr] at h; cases h
    | some n0 =>
      rw [hr] at h
      cases hrest : normalizeAll rest with
      | none => rw [hrest] at h; simp at h
      | some nl0 =>
        rw [hrest] at h
        simp only [Option.map_some', Option.some.injEq] at h
        subst h
        intro n hn
        rcases List.mem_cons.mp hn with rfl | hn
        · exact normalize_stripped hr
        · exact ih hrest n hn

/-- For a non-empty day set the display label ignores the fallback text. -/
lemma display_ne_empty_fallback {s : DaySet} (h : s ≠ DaySet.empty) (f : String) :
    day_set_to_display s f = day_set_to_display s "" := by
  unfold day_set_to_display
  rw [if_neg h, if_neg h]

set_option maxHeartbeats 1000000 in
/-- Re-parsing the display label of any non-empty day set recovers exactly
that set, and the label is `strip`-invariant (checked over all 128 sets:
`"Daily"` re-parses to the full week, and each comma-joined label list
re-parses to its own set). -/
lemma display_roundtrip :
    ∀ b1 b2 b3 b4 b5 b6 b7 : Bool,
      (⟨b1, b2, b3, b4, b5, b6, b7⟩ : DaySet) ≠ DaySet.empty →
      extract_day_set (day_set_to_display ⟨b1, b2, b3, b4, b5, b6, b7⟩ "")
          = some ⟨b1, b2, b3, b4, b5, b6, b7⟩ ∧
      pyStrip (day_set_to_display ⟨b1, b2, b3, b4, b5, b6, b7⟩ "")
          = day_set_to_display ⟨b1, b2, b3, b4, b5, b6, b7⟩ "" := by decide

lemma display_roundtrip' {s : DaySet} (h : s ≠ DaySet.empty) (f : String) :
    extract_day_set (day_set_to_display s f) = some s ∧
    pyStrip (day_set_to_display s f) = day_set_to_display s f := by
  rw [display_ne_empty_fallback h f]
  obtain ⟨b1, b2, b3, b4, b5, b6, b7⟩ := s
  exact display_roundtrip b1 b2 b3 b4 b5 b6 b7 h

/-- The first member stored in a group satisfies any predicate holding for
all entries fed into the merge loop. -/
lemma groupEntries_entry_pred (P : NEntry → Prop) (l : List NEntry)
    (hl : ∀ n ∈ l, P n) : ∀ kg ∈ groupEntries l, P kg.2.entry := by
  suffices h : ∀ (l' : List NEntry) (gs : List (MergeKey × Group)),
      (∀ n ∈ l', P n) → (∀ kg ∈ gs, P kg.2.entry) →
      ∀ kg ∈ l'.foldl stepGroup gs, P kg.2.entry from h l [] hl (by simp)
  intro l'
  induction l' with
  | nil =>
    intro gs _ hgs
    simpa using hgs
  | cons n rest ih =>
    intro gs hl' hgs
    rw [List.foldl_cons]
    refine ih _ (fun m hm => hl' m (List.mem_cons_of_mem n hm)) ?_
    intro kg hkg
    simp only [stepGroup] at hkg
    split_ifs at hkg with hany
    · cases hds : extract_day_set n.days_raw with
      | none =>
        rw [hds] at hkg
        exact hgs kg hkg
      | some s =>
        rw [hds] at hkg
        obtain ⟨kg0, hkg0, rfl⟩ := List.mem_map.mp hkg
        by_cases hk : kg0.1 = keyOf n
        · rw [if_pos hk]
          exact hgs kg0 hkg0
        · rw [if_neg hk]
          exact hgs kg0 hkg0
    · rcases List.mem_append.mp hkg with hmem | hmem
      · exact hgs kg hmem
      · obtain rfl := List.mem_singleton.mp hmem
        exact hl' n (List.mem_cons_self n rest)

lemma stepGroup_keys_of_present {gs : List (MergeKey × Group)} {n : NEntry}
    (hany : gs.any (fun kg => kg.1 = keyOf n) = true) :
    (stepGroup gs n).map Prod.fst = gs.map Prod.fst := by
  simp only [stepGroup]
  rw [if_pos hany]
  cases hds : extract_day_set n.days_raw with
  | none => rfl
  | some s =>
    rw [List.map_map]
    apply List.map_congr_left
    intro kg _
    by_cases hk : kg.1 = keyOf n
    · simp [hk]
    · simp [hk]

lemma stepGroup_keys_of_absent {gs : List (MergeKey × Group)} {n : NEntry}
    (hany : gs.any (fun kg => kg.1 = keyOf n) = false) :
    stepGroup gs n = gs ++ [(keyOf n,
      ⟨n, (extract_day_set n.days_raw).getD DaySet.empty,
        (extract_day_set n.days_raw).isSome⟩)] := by
  simp only [stepGroup]
  rw [if_neg]
  simp [hany]

/-- The keys of the `grouped` dict are pairwise distinct. -/
lemma groupEntries_keys_nodup (l : List NEntry) :
    ((groupEntries l).map Prod.fst).Nodup := by
  suffices h : ∀ (l' : List NEntry) (gs : List (MergeKey × Group)),
      (gs.map Prod.fst).Nodup → ((l'.foldl stepGroup gs).map Prod.fst).Nodup from
    h l [] (by simp)
  intro l'
  induction l' with
  | nil => intro gs hgs; simpa using hgs
  | cons n rest ih =>
    intro gs hgs
    rw [List.foldl_cons]
    apply ih
    cases hany : gs.any (fun kg => kg.1 = keyOf n) with
    | true => rw [stepGroup_keys_of_present hany]; exact hgs
    | false =>
      rw [stepGroup_keys_of_absent hany, List.map_append]
      simp only [List.map_cons, List.map_nil]
      rw [List.nodup_append]
      refine ⟨hgs, List.nodup_singleton _, ?_⟩
      intro k hk
      simp only [List.mem_singleton]
      intro hkeq
      subst hkeq
      obtain ⟨kg, hkg, hfst⟩ := List.mem_map.mp hk
      have := List.any_eq_false.mp hany kg hkg
      simp at this
      exact this hfst

/-- Grouping a list whose keys are pairwise distinct yields one singleton
group per entry, in order. -/
lemma groupEntries_of_nodup_keys (l : List NEntry) (h : (l.map keyOf).Nodup) :
    groupEntries l = l.map (fun n => (keyOf n,
      ⟨n, (extract_day_set n.days_raw).getD DaySet.empty,
        (extract_day_set n.days_raw).isSome⟩)) := by
  suffices hgen : ∀ (l' : List NEntry) (gs : List (MergeKey × Group)),
      (l'.map keyOf).Nodup →
      (∀ n ∈ l', ∀ kg ∈ gs, kg.1 ≠ keyOf n) →
      l'.foldl stepGroup gs = gs ++ l'.map (fun n => (keyOf n,
        ⟨n, (extract_day_set n.days_raw).getD DaySet.empty,
          (extract_day_set n.days_raw).isSome⟩)) by
    simpa using hgen l [] h (by simp)
  intro l'
  induction l' with
  | nil => intro gs _ _; simp
  | cons n rest ih =>
    intro gs hnodup hdisj
    rw [List.foldl_cons]
    have hany : gs.any (fun kg => kg.1 = keyOf n) = false := by
      rw [List.any_eq_false]
      intro kg hkg
      simp only [decide_eq_true_eq]
      exact hdisj n (List.mem_cons_self n rest) kg hkg
    rw [stepGroup_keys_of_absent hany]
    rw [ih _ (by simpa using hnodup.of_cons) ?_]
    · simp
    · intro m hm kg hkg
      rcases List.mem_append.mp hkg with hkg | hkg
      · exact hdisj m (List.mem_cons_of_mem n hm) kg hkg
      · obtain rfl := List.mem_singleton.mp hkg
        simp only [List.map_cons, List.nodup_cons, List.mem_map] at hnodup
        intro hkeq
        exact hnodup.1 ⟨m, hm, (hkeq).symm⟩

lemma canon_time_on (g : Group) : (canonOfGroup g).time_on = g.entry.time_on := rfl
lemma canon_time_off (g : Group) : (canonOfGroup g).time_off = g.entry.time_off := rfl
lemma canon_freq (g : Group) : (canonOfGroup g).frequency_khz = g.entry.frequency_khz := rfl
lemma canon_itu (g : Group) : (canonOfGroup g).itu = g.entry.itu := rfl
lemma canon_station (g : Group) : (canonOfGroup g).station = g.entry.station := rfl
lemma canon_language (g : Group) : (canonOfGroup g).language = g.entry.language := rfl
lemma canon_target (g : Group) : (canonOfGroup g).target = g.entry.target := rfl
lemma canon_remarks (g : Group) : (canonOfGroup g).remarks = g.entry.remarks := rfl
lemma canon_known (g : Group) : (canonOfGroup g).day_set_known = g.known := rfl

lemma canon_days_known {g : Group} (h : g.known = true) :
    (canonOfGroup g).days = day_set_to_display g.dayset g.entry.days_raw := by
  simp only [canonOfGroup, h, if_true]

lemma canon_days_unknown {g : Group} (h : g.known = false) :
    (canonOfGroup g).days = g.entry.days_raw := by
  simp only [canonOfGroup, h, Bool.false_eq_true, if_false]
  rfl

lemma canon_days_stripped {kg : MergeKey × Group} (hg : GoodGroup kg)
    (hstr : strippedEntry kg.2.entry) :
    pyStrip (canonOfGroup kg.2).days = (canonOfGroup kg.2).days := by
  obtain ⟨hkey, hkn, hne, hemp⟩ := hg
  cases hknown : kg.2.known with
  | true =>
    rw [canon_days_known hknown]
    exact (display_roundtrip' (hne hknown) _).2
  | false =>
    rw [canon_days_unknown hknown]
    exact hstr.2.2.1

/-- Re-parsing the day label of a canonical entry recovers its day-set
union (for known groups) resp. fails to parse again (for unknown ones). -/
lemma canon_extract {kg : MergeKey × Group} (hg : GoodGroup kg) :
    extract_day_set (canonOfGroup kg.2).days =
      if kg.2.known = true then some kg.2.dayset else none := by
  obtain ⟨hkey, hkn, hne, hemp⟩ := hg
  cases hknown : kg.2.known with
  | true =>
    rw [canon_days_known hknown, if_pos rfl]
    exact (display_roundtrip' (hne hknown) _).1
  | false =>
    rw [canon_days_unknown hknown, if_neg (by simp)]
    cases hx : extract_day_set kg.2.entry.days_raw with
    | none => rfl
    | some t =>
      rw [hx] at hkn
      simp only [Option.isSome_some] at hkn
      rw [hknown] at hkn
      cases hkn

lemma reStrip_days_raw {kg : MergeKey × Group} (hg : GoodGroup kg)
    (hstr : strippedEntry kg.2.entry) :
    (reStrip (canonOfGroup kg.2)).days_raw = (canonOfGroup kg.2).days :=
  canon_days_stripped hg hstr

/-- Re-normalizing a canonical entry reproduces the original merge key. -/
lemma keyOf_reStrip_canon {kg : MergeKey × Group} (hg : GoodGroup kg)
    (hstr : strippedEntry kg.2.entry) :
    keyOf (reStrip (canonOfGroup kg.2)) = kg.1 := by
  have hdays := canon_days_stripped hg hstr
  have hext := canon_extract hg
  obtain ⟨hkey, hkn, hne, hemp⟩ := hg
  obtain ⟨h1, h2, h3, h4, h5, h6, h7, h8⟩ := hstr
  rw [hkey]
  simp only [keyOf, reStrip, MergeKey.mk.injEq, canon_time_on, canon_time_off,
    canon_freq, canon_itu, canon_station, canon_language, canon_target, canon_remarks,
    h1, h2, h4, h5, h6, h7, h8, true_and, and_true, eq_self_iff_true]
  rw [hdays]
  unfold day_identity
  cases hknown : kg.2.known with
  | true =>
    rw [hext]
    rw [if_pos hknown]
    cases hx : extract_day_set kg.2.entry.days_raw with
    | none =>
      rw [hx] at hkn
      simp only [Option.isSome_none] at hkn
      rw [hknown] at hkn
      cases hkn
    | some t => rfl
  | false =>
    rw [canon_days_unknown hknown]

/-- The merge-summary row a re-normalized canonical entry generates equals
the row of the group it came from. -/
lemma summary_of_reStrip_canon {kg : MergeKey × Group} (hg : GoodGroup kg)
    (hstr : strippedEntry kg.2.entry) :
    (keyOf (reStrip (canonOfGroup kg.2)),
      (extract_day_set (reStrip (canonOfGroup kg.2)).days_raw).getD DaySet.empty)
    = (kg.1, kg.2.dayset) := by
  have h2 : (extract_day_set (reStrip (canonOfGroup kg.2)).days_raw).getD DaySet.empty
      = kg.2.dayset := by
    rw [reStrip_days_raw hg hstr, canon_extract hg]
    cases hknown : kg.2.known with
    | true => rfl
    | false => exact (hg.2.2.2 hknown).symm
  rw [keyOf_reStrip_canon hg hstr, h2]

/-- **C4.**  Merge is idempotent: feeding the canonical entries produced by
merge back into merge as raw entries re-normalizes without error, and the
second grouping produces a permutation of the first one's
(merge key, day-set union) summary — the same set of merge keys (both key
lists are duplicate-free) with the same per-key day-set unions. -/
theorem c4_merge_idempotent (raw : List RawEntry) (out : List CEntry)
    (h : merge_entries raw = some out) :
    ∃ nl nl2, normalizeAll raw = some nl ∧
      normalizeAll (out.map canonToRaw) = some nl2 ∧
      merge_entries (out.map canonToRaw) = some (merge_entries_norm nl2) ∧
      (mergeSummary nl2).Perm (mergeSummary nl) ∧
      ((mergeSummary nl).map Prod.fst).Nodup := by
  obtain ⟨nl, hnl, rfl⟩ := merge_entries_some h
  refine ⟨nl, (merge_entries_norm nl).map reStrip, hnl, normalizeAll_canonToRaw _, ?_, ?_, ?_⟩
  · unfold merge_entries
    rw [normalizeAll_canonToRaw, Option.map_some']
  · have hstripped : ∀ kg ∈ groupEntries nl, strippedEntry kg.2.entry :=
      groupEntries_entry_pred strippedEntry nl (normalizeAll_mem_stripped hnl)
    have hgood := groupEntries_good nl
    have hperm : (merge_entries_norm nl).Perm
        ((groupEntries nl).map (fun kg => canonOfGroup kg.2)) := by
      unfold merge_entries_norm
      exact List.perm_insertionSort entryLE _
    have hkeysmap : ((merge_entries_norm nl).map reStrip).map keyOf
        = (merge_entries_norm nl).map (fun c => keyOf (reStrip c)) := by
      rw [List.map_map]
      rfl
    have hkeyperm : ((merge_entries_norm nl).map (fun c => keyOf (reStrip c))).Perm
        ((groupEntries nl).map Prod.fst) := by
      have h1 := hperm.map (fun c => keyOf (reStrip c))
      rw [List.map_map] at h1
      refine h1.trans ?_
      rw [List.map_congr_left]
      intro kg hkg
      exact keyOf_reStrip_canon (hgood kg hkg) (hstripped kg hkg)
    have hnodup2 : (((merge_entries_norm nl).map reStrip).map keyOf).Nodup := by
      rw [hkeysmap]
      exact (hkeyperm.nodup_iff).mpr (groupEntries_keys_nodup nl)
    have hsingle := groupEntries_of_nodup_keys _ hnodup2
    have hsum2 : mergeSummary ((merge_entries_norm nl).map reStrip)
        = ((merge_entries_norm nl).map reStrip).map (fun n => (keyOf n,
            (extract_day_set n.days_raw).getD DaySet.empty)) := by
      unfold mergeSummary
      rw [hsingle, List.map_map]
      rfl
    rw [hsum2]
    have h3 : ((merge_entries_norm nl).map reStrip).map (fun n => (keyOf n,
        (extract_day_set n.days_raw).getD DaySet.empty))
        = (merge_entries_norm nl).map (fun c => (keyOf (reStrip c),
            (extract_day_set (reStrip c).days_raw).getD DaySet.empty)) := by
      rw [List.map_map]
      rfl
    rw [h3]
    have h4 := hperm.map (fun c => (keyOf (reStrip c),
      (extract_day_set (reStrip c).days_raw).getD DaySet.empty))
    rw [List.map_map] at h4
    refine h4.trans ?_
    have h5 : (groupEntries nl).map ((fun c => (keyOf (reStrip c),
        (extract_day_set (reStrip c).days_raw).getD DaySet.empty)) ∘
          (fun kg => canonOfGroup kg.2))
        = (groupEntries nl).map (fun kg => (kg.1, kg.2.dayset)) := by
      rw [List.map_congr_left]
      intro kg hkg
      exact summary_of_reStrip_canon (hgood kg hkg) (hstripped kg hkg)
    rw [h5]
    unfold mergeSummary
    exact List.Perm.refl _
  · have h6 : (mergeSummary nl).map Prod.fst = (groupEntries nl).map Prod.fst := by
      unfold mergeSummary
      rw [List.map_map]
      rfl
    rw [h6]
    exact groupEntries_keys_nodup nl

/-- Witness for `c4_merge_idempotent` at the singleton input `[c1raw]`. -/
theorem c4_merge_idempotent_witness :
    ∃ nl nl2, normalizeAll [c1raw] = some nl ∧
      normalizeAll (((merge_entries [c1raw]).getD []).map canonToRaw) = some nl2 ∧
      merge_entries (((merge_entries [c1raw]).getD []).map canonToRaw)
          = some (merge_entries_norm nl2) ∧
      (mergeSummary nl2).Perm (mergeSummary nl) ∧
      ((mergeSummary nl).map Prod.fst).Nodup :=
  c4_merge_idempotent [c1raw] ((merge_entries [c1raw]).getD []) (by decide)

end SWLView
